import Mathlib

/-!
Shallow embedding of the StocksRecommender trading system, translated from
`src/optimize_strategy.py` (`run_backtest_enhanced`),
`src/advanced_quantitative.py` (`AdvancedQuantStrategy`,
`run_advanced_backtest`) and `src/portfolio_tool.py` (`evaluate_action`,
`momentum_screen`).

Modelling conventions: float arithmetic is modelled exactly over `ℚ`
(square roots and real powers over `ℝ`); a pandas `NaN` / missing price is
`none`; a Python dict is an insertion-ordered association list; Python
`int()` is truncation toward zero.
-/

/-- A held position, `portfolio[ticker] = {'shares': ..., 'entry_price': ...}`:
a whole-share count and the recorded entry price. -/
structure Position where
  shares : ℕ
  entry_price : ℚ
  deriving DecidableEq, Repr

/-- The simulator state: cash plus the ordered ticker → position mapping
(`portfolio` dict and `cash` float in both backtest loops). -/
structure PortfolioState where
  cash : ℚ
  positions : List (String × Position)
  deriving DecidableEq, Repr

/-- Prices available on a rebalance date (`valid_prices = current_prices.dropna()`):
each ticker either has a price or is missing. -/
def Quotes : Type := String → Option ℚ

/-- Percent change from entry, `((current_price - entry_price) / entry_price) * 100`. -/
def pnlPct (entry current : ℚ) : ℚ := (current - entry) / entry * 100

/-- Python `int()` on a float: truncation toward zero. -/
def intTruncQ (q : ℚ) : ℤ := if 0 ≤ q then ⌊q⌋ else ⌈q⌉

/-- The exit test of `run_backtest_enhanced` (optimize_strategy.py lines
144-159): a priced position goes on `to_sell` when its percent change from
entry is `≤ stop_loss`, or when its ticker is no longer among the picks; a
position whose ticker has no price this date is skipped (`continue`) and
neither sold nor valued. -/
def sellCond (prices : Quotes) (picks : List String) (stop_loss : ℚ)
    (tp : String × Position) : Bool :=
  match prices tp.1 with
  | none => false
  | some p => decide (pnlPct tp.2.entry_price p ≤ stop_loss) || !(picks.contains tp.1)

/-- The `to_sell` list accumulated by the exit scan. -/
def toSell (prices : Quotes) (picks : List String) (stop_loss : ℚ)
    (positions : List (String × Position)) : List (String × Position) :=
  positions.filter (sellCond prices picks stop_loss)

/-- The portfolio after the sell loop deletes every `to_sell` ticker. -/
def keepAfterSells (prices : Quotes) (picks : List String) (stop_loss : ℚ)
    (positions : List (String × Position)) : List (String × Position) :=
  positions.filter (fun tp => !(sellCond prices picks stop_loss tp))

/-- `shares * valid_prices[ticker]` for one entry; 0 when the price is
missing (the loops guard with `if ticker in valid_prices.index`). -/
def saleValue (prices : Quotes) (tp : String × Position) : ℚ :=
  match prices tp.1 with
  | none => 0
  | some p => (tp.2.shares : ℚ) * p

/-- Cash credited by the sell loop, `cash += shares * sell_price`. -/
def sellProceeds (prices : Quotes) (sells : List (String × Position)) : ℚ :=
  (sells.map (saleValue prices)).sum

/-- The mark-to-market sum of both backtests (optimize_strategy.py lines
169-172 and 199-203): only positions whose ticker has a price contribute;
an unpriced position adds nothing. -/
def markValue (prices : Quotes) (positions : List (String × Position)) : ℚ :=
  (positions.map (saleValue prices)).sum

/-- `if ticker not in portfolio` membership test on the dict. -/
def heldBy (positions : List (String × Position)) (t : String) : Bool :=
  positions.any (fun tp => tp.1 = t)

/-- One iteration of the new-buy loop (optimize_strategy.py lines 184-197):
a ticker not yet held gets `int(target_value / current_price)` whole shares,
and the buy happens only when the full cost fits inside cash (`if cost <= cash`);
otherwise nothing at all is bought. -/
def buyOne (prices : Quotes) (pv : ℚ) (w : String → ℚ)
    (st : PortfolioState) (t : String) : PortfolioState :=
  if heldBy st.positions t then st
  else
    match prices t with
    | none => st
    | some p =>
      let target := pv * w t
      let n := intTruncQ (target / p)
      if 0 < n then
        if (n : ℚ) * p ≤ st.cash then
          { cash := st.cash - (n : ℚ) * p
            positions := st.positions ++ [(t, ⟨n.toNat, p⟩)] }
        else st
      else st

/-- The whole buy loop `for ticker in picks.index`, threading cash and the
growing portfolio; `pv` (the pre-buy portfolio value) stays fixed. -/
def buyPhase (prices : Quotes) (pv : ℚ) (w : String → ℚ)
    (picks : List String) (st : PortfolioState) : PortfolioState :=
  picks.foldl (buyOne prices pv w) st

/-- Equal-weight sizing, `1.0 / len(picks)`. -/
def equalWeight (picks : List String) : String → ℚ := fun _ => 1 / (picks.length : ℚ)

/-- One rebalance-date transition of `run_backtest_enhanced` (lines 140-205):
exit scan, sells, portfolio-value recomputation, new buys, and the recorded
EquityPoint value (`total_value`). -/
def stepEnhanced (stop_loss : ℚ) (picks : List String) (w : String → ℚ)
    (prices : Quotes) (st : PortfolioState) : PortfolioState × ℚ :=
  let sold := toSell prices picks stop_loss st.positions
  let st1 : PortfolioState :=
    { cash := st.cash + sellProceeds prices sold
      positions := keepAfterSells prices picks stop_loss st.positions }
  let pv := st1.cash + markValue prices st1.positions
  let st2 := buyPhase prices pv w picks st1
  (st2, st2.cash + markValue prices st2.positions)

/-- One rebalance date's inputs: the available prices, the picked tickers
and the target weights computed upstream by scoring and selection. -/
structure DayInput where
  quotes : Quotes
  picks : List String
  weights : String → ℚ

/-- The sequence of portfolio states along a `run_backtest_enhanced` run:
the initial state, then the state after each rebalance-date transition. -/
def statesEnhanced (stop_loss : ℚ) : List DayInput → PortfolioState → List PortfolioState
  | [], st => [st]
  | d :: ds, st =>
    st :: statesEnhanced stop_loss ds (stepEnhanced stop_loss d.picks d.weights d.quotes st).1

/-- Stop-loss test of `run_advanced_backtest` (advanced_quantitative.py
lines 440-449): a priced position with `pnl_pct <= -8.0` is liquidated. -/
def advStopCond (prices : Quotes) (tp : String × Position) : Bool :=
  match prices tp.1 with
  | none => false
  | some p => decide (pnlPct tp.2.entry_price p ≤ -8)

/-- Non-selection exit of `run_advanced_backtest` (lines 455-461): a ticker
outside the picks is sold when it has a price; an unpriced one stays. -/
def advNonSelCond (prices : Quotes) (picks : List String)
    (tp : String × Position) : Bool :=
  !(picks.contains tp.1) && (prices tp.1).isSome

/-- Dict lookup `portfolio[ticker]`. -/
def findPos (positions : List (String × Position)) (t : String) : Option Position :=
  (positions.find? (fun tp => tp.1 = t)).map Prod.snd

/-- One iteration of the rebalance loop of `run_advanced_backtest` (lines
466-501): a held ticker whose value drifts from target by more than 10% is
cashed out and re-bought at `int(target/price)` shares when affordable (the
cash credit survives even when the re-buy fails); a new ticker is bought
like in the enhanced loop. An unpriced pick is skipped (`continue`). -/
def advRebalanceOne (prices : Quotes) (target : ℚ)
    (st : PortfolioState) (t : String) : PortfolioState :=
  match prices t with
  | none => st
  | some p =>
    match findPos st.positions t with
    | some pos =>
      let cv := (pos.shares : ℚ) * p
      if |cv - target| > target * (0.1 : ℚ) then
        let cash1 := st.cash + cv
        let n := intTruncQ (target / p)
        if 0 < n ∧ (n : ℚ) * p ≤ cash1 then
          { cash := cash1 - (n : ℚ) * p
            positions := st.positions.map (fun tp => if tp.1 = t then (t, ⟨n.toNat, p⟩) else tp) }
        else { cash := cash1, positions := st.positions }
      else st
    | none =>
      let n := intTruncQ (target / p)
      if 0 < n then
        if (n : ℚ) * p ≤ st.cash then
          { cash := st.cash - (n : ℚ) * p
            positions := st.positions ++ [(t, ⟨n.toNat, p⟩)] }
        else st
      else st

/-- One rebalance-date transition of `run_advanced_backtest` (lines 435-509):
stop-loss sells, non-selection sells, equal-weight target `pv / 6`, the
rebalance/new-buy loop over the top 6 picks, and the recorded equity value. -/
def stepAdvanced (prices : Quotes) (picks : List String)
    (st : PortfolioState) : PortfolioState × ℚ :=
  let stopped := st.positions.filter (advStopCond prices)
  let st1 : PortfolioState :=
    { cash := st.cash + sellProceeds prices stopped
      positions := st.positions.filter (fun tp => !(advStopCond prices tp)) }
  let nonSel := st1.positions.filter (advNonSelCond prices picks)
  let st2 : PortfolioState :=
    { cash := st1.cash + sellProceeds prices nonSel
      positions := st1.positions.filter (fun tp => !(advNonSelCond prices picks tp)) }
  let pv := st2.cash + markValue prices st2.positions
  let target := pv / 6
  let st3 := (picks.take 6).foldl (advRebalanceOne prices target) st2
  (st3, st3.cash + markValue prices st3.positions)

/-- `STOP_LOSS_PCT = -10.0` (portfolio_tool.py line 16). -/
def STOP_LOSS_PCT : ℚ := -10
/-- `TAKE_PROFIT_PCT = 40.0` (line 17). -/
def TAKE_PROFIT_PCT : ℚ := 40
/-- `MAX_WEIGHT = 0.20` (line 18). -/
def MAX_WEIGHT : ℚ := 0.20
/-- `REBALANCE_BAND = 0.03` (line 19). -/
def REBALANCE_BAND : ℚ := 0.03

/-- `evaluate_action` of portfolio_tool.py (lines 165-176): the per-holding
recommendation from pnl percent and portfolio weight. -/
def evaluate_action : Option ℚ → Option ℚ → String × String
  | some pnl, some weight =>
    if pnl ≤ STOP_LOSS_PCT then ("Sell", "Stop loss hit")
    else if TAKE_PROFIT_PCT ≤ pnl ∧ MAX_WEIGHT - REBALANCE_BAND ≤ weight then
      ("Trim", "Lock gains and rebalance")
    else if MAX_WEIGHT + REBALANCE_BAND < weight then ("Trim", "Overweight vs cap")
    else ("Hold", "Within bands")
  | _, _ => ("Review", "Price missing")

/-- One survivor row of `momentum_screen` (portfolio_tool.py line 234):
the tuple `(ticker, ret1m, ret3m, ret6m, vol, score)`. -/
structure ScreenRow where
  ticker : String
  ret1m : ℚ
  ret3m : ℚ
  ret6m : ℚ
  vol : ℚ
  score : ℚ
  deriving DecidableEq, Repr

/-- The comparison realized by `rows.sort(key=lambda r: r[5], reverse=True)`:
row `a` may precede row `b` exactly when `a`'s score is at least `b`'s. -/
def screenLE (a b : ScreenRow) : Bool := decide (b.score ≤ a.score)

/-- The ranking of `momentum_screen` (portfolio_tool.py line 238): CPython's
`list.sort` is stable, so this is a stable descending sort on the score
alone — rows with equal scores keep their universe order. -/
def momentumRank (rows : List ScreenRow) : List ScreenRow :=
  rows.mergeSort screenLE

/-- `TOP_N_PICKS = 6` (portfolio_tool.py line 32). -/
def TOP_N_PICKS : ℕ := 6

/-- `return rows[:top_n]` (portfolio_tool.py line 239). -/
def momentumScreenTop (rows : List ScreenRow) : List ScreenRow :=
  (momentumRank rows).take TOP_N_PICKS

/-- The `1e-10` guard used throughout `advanced_quantitative.py`. -/
def EPS10 : ℚ := 1e-10

/-- `Series.min()` over a nonempty series (0 for an empty one). -/
def qMin : List ℚ → ℚ
  | [] => 0
  | x :: xs => xs.foldl min x

/-- `Series.max()` over a nonempty series (0 for an empty one). -/
def qMax : List ℚ → ℚ
  | [] => 0
  | x :: xs => xs.foldl max x

/-- The min-max normalization of `calculate_composite_score`
(advanced_quantitative.py lines 326-331):
`(s - s.min()) / (s.max() - s.min() + 1e-10) * 100`, where `xs` is the
feature series across the eligible set and `x` one of its values. -/
def minmaxNorm (xs : List ℚ) (x : ℚ) : ℚ :=
  (x - qMin xs) / (qMax xs - qMin xs + EPS10) * 100

/-- `col.diff()` without its leading NaN: consecutive differences. -/
def diffs (ps : List ℚ) : List ℚ :=
  (ps.zip ps.tail).map (fun ab => ab.2 - ab.1)

/-- `col.pct_change()` without its leading NaN: consecutive simple returns. -/
def pctChanges (ps : List ℚ) : List ℚ :=
  (ps.zip ps.tail).map (fun ab => ab.2 / ab.1 - 1)

/-- `Series.mean()`. -/
def sampleMean (xs : List ℚ) : ℚ := xs.sum / (xs.length : ℚ)

/-- `Series.std() ** 2`: the sample variance with pandas' default `ddof=1`. -/
def sampleVar (xs : List ℚ) : ℚ :=
  (xs.map (fun x => (x - sampleMean xs) ^ 2)).sum / ((xs.length : ℚ) - 1)

/-- `AdvancedQuantStrategy.calculate_rsi` for one price column: the RSI from
the rolling-14 mean of gains and losses, mapped to the confirmation signal
`1 - |RSI - 50| / 50`; when the last rolling window still overlaps the
leading NaN of `diff()` (fewer than 14 differences) the result is the NaN
fallback `0.5`. -/
def rsiSignal (ps : List ℚ) : ℚ :=
  let ds := diffs ps
  if ds.length < 14 then 0.5
  else
    let last14 := ds.drop (ds.length - 14)
    let avg_gain := (last14.map (fun d => max d 0)).sum / 14
    let avg_loss := (last14.map (fun d => max (-d) 0)).sum / 14
    let rs := avg_gain / (avg_loss + EPS10)
    let rsi := 100 - 100 / (1 + rs)
    1 - |rsi - 50| / 50

/-- `rsi_norm = rsi * 100` (advanced_quantitative.py line 328). -/
def rsiNorm (ps : List ℚ) : ℚ := rsiSignal ps * 100

/-- Annualized volatility `returns.std() * np.sqrt(252)` of a price column. -/
noncomputable def annualVol (ps : List ℚ) : ℝ :=
  Real.sqrt ((sampleVar (pctChanges ps) : ℚ) : ℝ) * Real.sqrt 252

/-- `AdvancedQuantStrategy.calculate_volatility_risk` for one price column:
0 for fewer than two prices, otherwise `-annual_vol / (1 + annual_vol) * 100`.
With exactly two prices there is a single return and pandas' `std()`
(`ddof=1`) is NaN, so the result is `none`. This value enters the composite
unchanged: `risk_norm = risk` (line 332). -/
noncomputable def calculate_volatility_risk (ps : List ℚ) : Option ℝ :=
  if ps.length < 2 then some 0
  else if ps.length = 2 then none
  else some (-(annualVol ps) / (1 + annualVol ps) * 100)

/-- CAGR of `run_backtest_enhanced` (optimize_strategy.py lines 213-216):
`total_return = final/initial - 1`, `years = days / 365.25`,
`((1 + total_return) ** (1 / years) - 1) * 100`. -/
noncomputable def cagrPct (v0 v1 : ℚ) (days : ℕ) : ℝ :=
  ((1 + ((v1 : ℝ) / (v0 : ℝ) - 1)) ^ ((1 : ℝ) / ((days : ℝ) / 365.25)) - 1) * 100

/-- `returns.std()` as a real number. -/
noncomputable def sampleStd (xs : List ℚ) : ℝ :=
  Real.sqrt ((sampleVar xs : ℚ) : ℝ)

/-- The Sharpe ratio of the equity curve in `run_backtest_enhanced` (lines
223-226): `(returns.mean() / returns.std()) * (252 ** 0.5)` when the std is
positive, else 0 — applied to the weekly (`W-FRI`) equity-curve returns. -/
noncomputable def sharpeEnhanced (rs : List ℚ) : ℝ :=
  if 0 < sampleStd rs then ((sampleMean rs : ℚ) : ℝ) / sampleStd rs * Real.sqrt 252 else 0

/-- Modelled from the spec: "Annualized Sharpe = (mean period return / std
period return) × √(periods per year), with the scaling factor matching the
rebalance frequency (√252 for daily-equivalent, √52 for weekly)" — the
weekly-scaled variant the spec prescribes, stated for comparison with the
code's `sharpeEnhanced`. -/
noncomputable def sharpeWeeklySpec (rs : List ℚ) : ℝ :=
  if 0 < sampleStd rs then ((sampleMean rs : ℚ) : ℝ) / sampleStd rs * Real.sqrt 52 else 0

/-- `(1 + returns).cumprod()`. -/
def cumprod1p (rs : List ℚ) : List ℚ :=
  ((rs.map (fun r => 1 + r)).scanl (fun a b => a * b) 1).tail

/-- `cumulative.expanding().max()`. -/
def runningMax : List ℚ → List ℚ
  | [] => []
  | x :: xs => xs.scanl max x

/-- `((cumulative - running_max) / running_max).min() * 100`. -/
def maxDrawdownPct (rs : List ℚ) : ℚ :=
  let c := cumprod1p rs
  let m := runningMax c
  qMin ((c.zip m).map (fun cm => (cm.1 - cm.2) / cm.2)) * 100

/-- The performance dict returned by `run_backtest_enhanced`. -/
structure BacktestMetrics where
  cagr : ℝ
  max_drawdown : ℚ
  sharpe : ℝ
  total_return : ℚ

/-- All quoted prices are nonnegative (market prices; the data feed never
produces a negative close). -/
def pricesNonneg (prices : Quotes) : Prop := ∀ t p, prices t = some p → 0 ≤ p

/-- Concrete two-ticker quote table: A at 30, B at 60. -/
def quotesAB : Quotes := fun t => if t = "A" then some 30 else if t = "B" then some 60 else none

/-- Concrete quote table where only B is priced (A's price is missing). -/
def quotesBonly : Quotes := fun t => if t = "B" then some 1000000 else none

/-- Concrete quote table pricing every ticker at 10. -/
def quotesTen : Quotes := fun _ => some 10

/-- The tail of `run_backtest_enhanced` (lines 207-232): an equity curve of
fewer than 2 EquityPoints yields `None` (`if len(equity_curve) < 2: return
None`); otherwise the performance metrics are computed from it. Each
EquityPoint is (day number, total value). -/
noncomputable def runResult : List (ℕ × ℚ) → Option BacktestMetrics
  | [] => none
  | [_] => none
  | e0 :: e1 :: rest =>
    let es := e0 :: e1 :: rest
    let last := (e1 :: rest).getLast (by simp)
    let values := es.map Prod.snd
    let rets := pctChanges values
    some
      { cagr := cagrPct e0.2 last.2 (last.1 - e0.1)
        max_drawdown := maxDrawdownPct rets
        sharpe := sharpeEnhanced rets
        total_return := (last.2 / e0.2 - 1) * 100 }

/-! ## Theorems -/

theorem sellCond_priced (prices : Quotes) (picks : List String) (sl p : ℚ)
    (t : String) (pos : Position) (hp : prices t = some p) :
    sellCond prices picks sl (t, pos)
      = (decide (pnlPct pos.entry_price p ≤ sl) || !(picks.contains t)) := by
  simp only [sellCond, hp]

/-- C2: the stop-loss comparison is inclusive: `evaluate_action` returns
"Sell" exactly when pnl_pct ≤ STOP_LOSS_PCT (so a pnl exactly at the
threshold sells and one strictly above does not), and in
`run_backtest_enhanced` a priced position with pnl at or below `stop_loss`
is put on the sell list and removed from the portfolio, while one strictly
above the threshold that is still selected is kept. -/
theorem stop_loss_boundary_inclusive (pnl w sl p : ℚ) (prices : Quotes)
    (picks : List String) (t : String) (pos : Position)
    (positions : List (String × Position))
    (hp : prices t = some p) (hmem : (t, pos) ∈ positions) :
    ((evaluate_action (some pnl) (some w)).1 = "Sell" ↔ pnl ≤ STOP_LOSS_PCT)
    ∧ (pnlPct pos.entry_price p ≤ sl →
        (t, pos) ∈ toSell prices picks sl positions
          ∧ (t, pos) ∉ keepAfterSells prices picks sl positions)
    ∧ (sl < pnlPct pos.entry_price p → picks.contains t = true →
        (t, pos) ∉ toSell prices picks sl positions
          ∧ (t, pos) ∈ keepAfterSells prices picks sl positions) := by
  have hc := sellCond_priced prices picks sl p t pos hp
  refine ⟨?_, ?_, ?_⟩
  · constructor
    · intro hs
      by_contra hnot
      simp only [evaluate_action] at hs
      rw [if_neg hnot] at hs
      split_ifs at hs <;> simp_all
    · intro hle
      simp only [evaluate_action]
      rw [if_pos hle]
  · intro h
    have hcond : sellCond prices picks sl (t, pos) = true := by simp [hc, h]
    exact ⟨List.mem_filter.mpr ⟨hmem, hcond⟩,
      fun hk => by simpa [hcond] using (List.mem_filter.mp hk).2⟩
  · intro h hpick
    have hcond : sellCond prices picks sl (t, pos) = false := by
      rw [hc, hpick]
      simp [not_le.mpr h]
    exact ⟨fun hk => by simpa [hcond] using (List.mem_filter.mp hk).2,
      List.mem_filter.mpr ⟨hmem, by simp [hcond]⟩⟩

theorem stop_loss_boundary_inclusive_witness :
    ("A", (⟨5, 50⟩ : Position)) ∈ toSell (fun _ => some 45) ["A"] (-10) [("A", ⟨5, 50⟩)] :=
  ((stop_loss_boundary_inclusive (-10) (1/10) (-10) 45 (fun _ => some 45) ["A"] "A"
      ⟨5, 50⟩ [("A", ⟨5, 50⟩)] rfl (by simp)).2.1 (by norm_num [pnlPct])).1

/-- C10: the take-profit trim is gated on concentration: with pnl above the
stop-loss, `evaluate_action` returns the take-profit Trim exactly when
pnl_pct ≥ TAKE_PROFIT_PCT and weight ≥ MAX_WEIGHT - REBALANCE_BAND; a
position above the take-profit threshold whose weight is below that bound
(and not above MAX_WEIGHT + REBALANCE_BAND) is a Hold. -/
theorem take_profit_trim_gated (pnl w : ℚ) (hsl : STOP_LOSS_PCT < pnl) :
    (evaluate_action (some pnl) (some w) = ("Trim", "Lock gains and rebalance")
      ↔ (TAKE_PROFIT_PCT ≤ pnl ∧ MAX_WEIGHT - REBALANCE_BAND ≤ w))
    ∧ (TAKE_PROFIT_PCT ≤ pnl → w < MAX_WEIGHT - REBALANCE_BAND →
        w ≤ MAX_WEIGHT + REBALANCE_BAND →
        evaluate_action (some pnl) (some w) = ("Hold", "Within bands")) := by
  have hns : ¬ pnl ≤ STOP_LOSS_PCT := not_le.mpr hsl
  simp only [evaluate_action]
  rw [if_neg hns]
  constructor
  · split_ifs with h2 h3
    · simp [h2]
    · exact ⟨fun he => absurd he (by simp), fun hcnd => absurd hcnd h2⟩
    · exact ⟨fun he => absurd he (by simp), fun hcnd => absurd hcnd h2⟩
  · intro hTP hw hcap
    have h3 : ¬ (MAX_WEIGHT + REBALANCE_BAND < w) := not_lt.mpr hcap
    have h2 : ¬ (TAKE_PROFIT_PCT ≤ pnl ∧ MAX_WEIGHT - REBALANCE_BAND ≤ w) :=
      fun hand => absurd hand.2 (not_le.mpr hw)
    rw [if_neg h2, if_neg h3]

theorem take_profit_trim_gated_witness :
    evaluate_action (some 50) (some (18/100)) = ("Trim", "Lock gains and rebalance") :=
  (take_profit_trim_gated 50 (18/100)
      (by norm_num [STOP_LOSS_PCT])).1.mpr
    (by norm_num [TAKE_PROFIT_PCT, MAX_WEIGHT, REBALANCE_BAND])

/-- C8: a backtest with fewer than 2 EquityPoints returns the distinct
"insufficient data" result `none` and performance metrics are produced
(a `some`) exactly when at least 2 EquityPoints exist. -/
theorem insufficient_equity_guard (eq : List (ℕ × ℚ)) :
    runResult eq = none ↔ eq.length < 2 := by
  match eq with
  | [] => simp [runResult]
  | [e] => simp [runResult]
  | e0 :: e1 :: rest => simp [runResult]

theorem screenLE_trans : ∀ a b c : ScreenRow, screenLE a b → screenLE b c → screenLE a c := by
  intro a b c hab hbc
  simp only [screenLE, decide_eq_true_eq] at *
  exact le_trans hbc hab

theorem screenLE_total : ∀ a b : ScreenRow, screenLE a b || screenLE b a := by
  intro a b
  simp only [screenLE, Bool.or_eq_true, decide_eq_true_eq]
  exact le_total b.score a.score

/-- C5 (amended): the ranking of `momentum_screen` is deterministic: it is a
permutation of the survivor rows, ordered descending by composite score, and
stable — rows with equal scores keep their original (universe) order; there
is no momentum or ticker-lexical tie-break. -/
theorem ranking_sorted_and_stable (rows : List ScreenRow) :
    List.Perm (momentumRank rows) rows
    ∧ (momentumRank rows).Pairwise (fun a b => b.score ≤ a.score)
    ∧ (∀ a b : ScreenRow, b.score ≤ a.score → List.Sublist [a, b] rows →
        List.Sublist [a, b] (momentumRank rows)) := by
  refine ⟨List.mergeSort_perm rows screenLE, ?_, ?_⟩
  · exact (List.sorted_mergeSort screenLE_trans screenLE_total rows).imp
      (fun hab => of_decide_eq_true hab)
  · intro a b hab hsub
    exact List.pair_sublist_mergeSort screenLE_trans screenLE_total
      (decide_eq_true hab) hsub

/-- C5 counterexample: two survivor rows with equal composite scores and
equal raw momentum appear in the ranking in their input (universe) order —
row "B" first — although the claimed ticker-lexical tie-break would place
row "A" first. -/
theorem ranking_tiebreak_counterexample :
    momentumRank [⟨"B", 1, 1, 1, 10, 5⟩, ⟨"A", 1, 1, 1, 10, 5⟩]
        = [⟨"B", 1, 1, 1, 10, 5⟩, ⟨"A", 1, 1, 1, 10, 5⟩]
    ∧ (⟨"A", 1, 1, 1, 10, 5⟩ : ScreenRow).score = (⟨"B", 1, 1, 1, 10, 5⟩ : ScreenRow).score
    ∧ (⟨"A", 1, 1, 1, 10, 5⟩ : ScreenRow).ticker < (⟨"B", 1, 1, 1, 10, 5⟩ : ScreenRow).ticker
    ∧ momentumRank [⟨"B", 1, 1, 1, 10, 5⟩, ⟨"A", 1, 1, 1, 10, 5⟩]
        ≠ [⟨"A", 1, 1, 1, 10, 5⟩, ⟨"B", 1, 1, 1, 10, 5⟩] := by
  have hsorted : momentumRank [⟨"B", 1, 1, 1, 10, 5⟩, ⟨"A", 1, 1, 1, 10, 5⟩]
      = [⟨"B", 1, 1, 1, 10, 5⟩, ⟨"A", 1, 1, 1, 10, 5⟩] := by
    apply List.mergeSort_of_sorted
    norm_num [screenLE]
  refine ⟨hsorted, rfl, by show ("A" : String) < "B"; rw [String.lt_iff_toList_lt]; decide, ?_⟩
  rw [hsorted]
  intro hcontra
  have : ("B" : String) = "A" := congrArg ScreenRow.ticker (List.head_eq_of_cons_eq hcontra)
  simp at this

/-- C3 (amended): in the new-buy loop a newly selected ticker whose
whole-share target cost exceeds available cash is skipped entirely — no
shares are bought and cash and portfolio are unchanged; when the target
cost fits, the full `int(target/price)` share count is bought. The buy is
never clipped to `floor(cash/price)` shares. -/
theorem unaffordable_buy_skipped (prices : Quotes) (pv : ℚ) (w : String → ℚ)
    (st : PortfolioState) (t : String) (p : ℚ)
    (hp : prices t = some p) (hheld : heldBy st.positions t = false) :
    (st.cash < (intTruncQ (pv * w t / p) : ℚ) * p → buyOne prices pv w st t = st)
    ∧ (0 < intTruncQ (pv * w t / p) → (intTruncQ (pv * w t / p) : ℚ) * p ≤ st.cash →
        buyOne prices pv w st t =
          { cash := st.cash - (intTruncQ (pv * w t / p) : ℚ) * p
            positions := st.positions ++ [(t, ⟨(intTruncQ (pv * w t / p)).toNat, p⟩)] }) := by
  simp only [buyOne, hp, hheld, Bool.false_eq_true, if_false]
  constructor
  · intro hcash
    split_ifs with h1 h2
    · exact absurd h2 (not_le.mpr hcash)
    · rfl
    · rfl
  · intro hn hcost
    rw [if_pos hn, if_pos hcost]

theorem unaffordable_buy_skipped_witness :
    buyOne quotesAB 400 (equalWeight ["A", "B"]) ⟨100, [("A", ⟨10, 30⟩)]⟩ "B"
      = ⟨100, [("A", ⟨10, 30⟩)]⟩ :=
  (unaffordable_buy_skipped quotesAB 400 (equalWeight ["A", "B"])
      ⟨100, [("A", ⟨10, 30⟩)]⟩ "B" 60 rfl (by decide)).1
    (by norm_num [intTruncQ, equalWeight])

/-- C3 counterexample: cash 100, one held position "A" worth 300, picks
["A", "B"] at equal weight, "B" priced at 60: the whole-share target for
"B" is 3 shares costing 180 > 100, yet `floor(cash/price) = 1` share would
be affordable. The code abandons the purchase entirely — the state is
unchanged — instead of buying the claimed 1 clipped share. -/
theorem clipped_buy_counterexample :
    (stepEnhanced (-10) ["A", "B"] (equalWeight ["A", "B"]) quotesAB
        ⟨100, [("A", ⟨10, 30⟩)]⟩).1 = ⟨100, [("A", ⟨10, 30⟩)]⟩
    ∧ intTruncQ ((100 : ℚ) / 60) = 1 := by
  constructor
  · norm_num [stepEnhanced, toSell, keepAfterSells, sellCond, sellProceeds, saleValue,
      markValue, buyPhase, buyOne, heldBy, equalWeight, pnlPct, intTruncQ,
      show quotesAB "A" = some 30 from rfl, show quotesAB "B" = some 60 from rfl,
      List.filter, List.foldl]
  · norm_num [intTruncQ]

theorem sellCond_unpriced (prices : Quotes) (picks : List String) (sl : ℚ)
    (t : String) (pos : Position) (hp : prices t = none) :
    sellCond prices picks sl (t, pos) = false := by
  simp only [sellCond, hp]

theorem saleValue_unpriced (prices : Quotes) (t : String) (pos : Position)
    (hp : prices t = none) : saleValue prices (t, pos) = 0 := by
  simp only [saleValue, hp]

theorem markValue_middle (prices : Quotes) (t : String) (pos : Position)
    (m₁ m₂ : List (String × Position)) (hp : prices t = none) :
    markValue prices (m₁ ++ (t, pos) :: m₂) = markValue prices (m₁ ++ m₂) := by
  simp [markValue, saleValue_unpriced prices t pos hp]

theorem heldBy_middle (t q : String) (pos : Position)
    (m₁ m₂ : List (String × Position)) (hqt : t ≠ q) :
    heldBy (m₁ ++ (t, pos) :: m₂) q = heldBy (m₁ ++ m₂) q := by
  simp [heldBy, hqt]

theorem buyPhase_cons (prices : Quotes) (pv : ℚ) (w : String → ℚ)
    (q : String) (qs : List String) (st : PortfolioState) :
    buyPhase prices pv w (q :: qs) st = buyPhase prices pv w qs (buyOne prices pv w st q) := by
  simp [buyPhase]

theorem buyOne_middle (prices : Quotes) (pv : ℚ) (w : String → ℚ)
    (t : String) (pos : Position) (q : String) (hqt : t ≠ q)
    (c : ℚ) (m₁ m₂ : List (String × Position)) :
    ∃ m₂' : List (String × Position),
      buyOne prices pv w ⟨c, m₁ ++ (t, pos) :: m₂⟩ q
        = ⟨(buyOne prices pv w ⟨c, m₁ ++ m₂⟩ q).cash, m₁ ++ (t, pos) :: m₂'⟩
      ∧ (buyOne prices pv w ⟨c, m₁ ++ m₂⟩ q).positions = m₁ ++ m₂' := by
  have hh := heldBy_middle t q pos m₁ m₂ hqt
  cases hheld : heldBy (m₁ ++ m₂) q with
  | true =>
    exact ⟨m₂, by simp [buyOne, hh, hheld], by simp [buyOne, hheld]⟩
  | false =>
    cases hpq : prices q with
    | none =>
      exact ⟨m₂, by simp [buyOne, hh, hheld, hpq], by simp [buyOne, hheld, hpq]⟩
    | some p =>
      by_cases hn : 0 < intTruncQ (pv * w q / p)
      · by_cases hcost : (intTruncQ (pv * w q / p) : ℚ) * p ≤ c
        · refine ⟨m₂ ++ [(q, ⟨(intTruncQ (pv * w q / p)).toNat, p⟩)], ?_, ?_⟩
          · simp [buyOne, hh, hheld, hpq, hn, hcost]
          · simp [buyOne, hheld, hpq, hn, hcost]
        · exact ⟨m₂, by simp [buyOne, hh, hheld, hpq, hn, hcost], by simp [buyOne, hheld, hpq, hn, hcost]⟩
      · exact ⟨m₂, by simp [buyOne, hh, hheld, hpq, hn], by simp [buyOne, hheld, hpq, hn]⟩

theorem buyPhase_middle (prices : Quotes) (pv : ℚ) (w : String → ℚ)
    (t : String) (pos : Position) :
    ∀ (picks : List String), picks.contains t = false →
      ∀ (c : ℚ) (m₁ m₂ : List (String × Position)),
      ∃ m₂' : List (String × Position),
        buyPhase prices pv w picks ⟨c, m₁ ++ (t, pos) :: m₂⟩
          = ⟨(buyPhase prices pv w picks ⟨c, m₁ ++ m₂⟩).cash, m₁ ++ (t, pos) :: m₂'⟩
        ∧ (buyPhase prices pv w picks ⟨c, m₁ ++ m₂⟩).positions = m₁ ++ m₂' := by
  intro picks
  induction picks with
  | nil => exact fun _ c m₁ m₂ => ⟨m₂, rfl, rfl⟩
  | cons q qs ih =>
    intro hnc c m₁ m₂
    rw [List.contains_cons, Bool.or_eq_false_iff] at hnc
    have hqt : t ≠ q := ne_of_beq_false hnc.1
    have hqs : qs.contains t = false := hnc.2
    obtain ⟨m₂', h1, h2⟩ := buyOne_middle prices pv w t pos q hqt c m₁ m₂
    have h5 : buyOne prices pv w ⟨c, m₁ ++ m₂⟩ q
        = (⟨(buyOne prices pv w ⟨c, m₁ ++ m₂⟩ q).cash, m₁ ++ m₂'⟩ : PortfolioState) := by
      rw [← h2]
    obtain ⟨m₂'', h3, h4⟩ := ih hqs (buyOne prices pv w ⟨c, m₁ ++ m₂⟩ q).cash m₁ m₂'
    refine ⟨m₂'', ?_, ?_⟩
    · rw [buyPhase_cons, buyPhase_cons, h1, h5, h3]
    · rw [buyPhase_cons, h5, h4]

/-- C1 (amended): in `run_backtest_enhanced`, a held position whose ticker
has no price on a rebalance date is retained (it is neither stop-lossed nor
exit-sold and stays in the portfolio), but it contributes nothing to the
portfolio-value accounting or to the recorded EquityPoint: the resulting
cash and equity value are exactly those of a run in which the position does
not exist at all. Nothing is flagged and no last-known value is carried. -/
theorem unpriced_position_carried_out_of_accounting
    (sl : ℚ) (picks : List String) (w : String → ℚ) (prices : Quotes)
    (cash : ℚ) (l₁ l₂ : List (String × Position)) (t : String) (pos : Position)
    (hp : prices t = none) (hnp : picks.contains t = false) :
    (stepEnhanced sl picks w prices ⟨cash, l₁ ++ (t, pos) :: l₂⟩).1.cash
        = (stepEnhanced sl picks w prices ⟨cash, l₁ ++ l₂⟩).1.cash
    ∧ (stepEnhanced sl picks w prices ⟨cash, l₁ ++ (t, pos) :: l₂⟩).2
        = (stepEnhanced sl picks w prices ⟨cash, l₁ ++ l₂⟩).2
    ∧ (t, pos) ∈ (stepEnhanced sl picks w prices ⟨cash, l₁ ++ (t, pos) :: l₂⟩).1.positions := by
  have hsc := sellCond_unpriced prices picks sl t pos hp
  have hts : toSell prices picks sl (l₁ ++ (t, pos) :: l₂) = toSell prices picks sl (l₁ ++ l₂) := by
    simp [toSell, List.filter_append, List.filter_cons, hsc]
  have hks : keepAfterSells prices picks sl (l₁ ++ (t, pos) :: l₂)
      = keepAfterSells prices picks sl l₁ ++ (t, pos) :: keepAfterSells prices picks sl l₂ := by
    simp [keepAfterSells, List.filter_append, List.filter_cons, hsc]
  have hks2 : keepAfterSells prices picks sl (l₁ ++ l₂)
      = keepAfterSells prices picks sl l₁ ++ keepAfterSells prices picks sl l₂ := by
    simp [keepAfterSells, List.filter_append]
  simp only [stepEnhanced, hts, hks, hks2]
  rw [markValue_middle prices t pos _ _ hp]
  obtain ⟨m₂', hb1, hb2⟩ := buyPhase_middle prices
    (cash + sellProceeds prices (toSell prices picks sl (l₁ ++ l₂))
      + markValue prices (keepAfterSells prices picks sl l₁ ++ keepAfterSells prices picks sl l₂))
    w t pos picks hnp
    (cash + sellProceeds prices (toSell prices picks sl (l₁ ++ l₂)))
    (keepAfterSells prices picks sl l₁) (keepAfterSells prices picks sl l₂)
  rw [hb1, hb2]
  refine ⟨rfl, ?_, by simp⟩
  rw [markValue_middle prices t pos _ _ hp]

/-- C1 counterexample: cash 1000, one held position "A" (10 shares, entry
price 50, so last known value 500) whose price is missing on this date, and
one pick "B" priced out of reach. The recorded EquityPoint is 1000 — the
cash alone — although the claim requires the position to be carried at its
last known value, which would record 1000 + 500. -/
theorem unpriced_position_counterexample :
    (stepEnhanced (-10) ["B"] (equalWeight ["B"]) quotesBonly ⟨1000, [("A", ⟨10, 50⟩)]⟩).2 = 1000
    ∧ (stepEnhanced (-10) ["B"] (equalWeight ["B"]) quotesBonly
        ⟨1000, [("A", ⟨10, 50⟩)]⟩).1.positions = [("A", ⟨10, 50⟩)]
    ∧ (1000 : ℚ) ≠ 1000 + 10 * 50 := by
  refine ⟨?_, ?_, by norm_num⟩ <;>
    norm_num [stepEnhanced, toSell, keepAfterSells, sellCond, sellProceeds, saleValue,
      markValue, buyPhase, buyOne, heldBy, equalWeight, pnlPct, intTruncQ,
      show quotesBonly "A" = none from rfl, show quotesBonly "B" = some 1000000 from rfl,
      List.filter, List.foldl]

theorem unpriced_position_carried_witness :
    ("A", (⟨10, 50⟩ : Position)) ∈ (stepEnhanced (-10) ["B"] (equalWeight ["B"]) quotesBonly
      ⟨1000, [] ++ ("A", (⟨10, 50⟩ : Position)) :: []⟩).1.positions :=
  (unpriced_position_carried_out_of_accounting (-10) ["B"] (equalWeight ["B"]) quotesBonly
      1000 [] [] "A" ⟨10, 50⟩ rfl (by decide)).2.2

theorem saleValue_nonneg (prices : Quotes) (hnn : pricesNonneg prices)
    (tp : String × Position) : 0 ≤ saleValue prices tp := by
  unfold saleValue
  cases hp : prices tp.1 with
  | none => exact le_refl 0
  | some p => exact mul_nonneg (by positivity) (hnn tp.1 p hp)

theorem sellProceeds_nonneg (prices : Quotes) (hnn : pricesNonneg prices)
    (l : List (String × Position)) : 0 ≤ sellProceeds prices l := by
  refine List.sum_nonneg ?_
  intro x hx
  obtain ⟨tp, _, rfl⟩ := List.mem_map.mp hx
  exact saleValue_nonneg prices hnn tp

theorem buyOne_cash_nonneg (prices : Quotes) (pv : ℚ) (w : String → ℚ)
    (st : PortfolioState) (t : String) (h : 0 ≤ st.cash) :
    0 ≤ (buyOne prices pv w st t).cash := by
  cases hheld : heldBy st.positions t with
  | true => simpa [buyOne, hheld] using h
  | false =>
    cases hpq : prices t with
    | none => simpa [buyOne, hheld, hpq] using h
    | some p =>
      simp only [buyOne, hheld, Bool.false_eq_true, if_false, hpq]
      split_ifs with h1 h2
      · simpa using sub_nonneg.mpr h2
      · simpa using h
      · simpa using h

theorem buyPhase_cash_nonneg (prices : Quotes) (pv : ℚ) (w : String → ℚ) :
    ∀ (picks : List String) (st : PortfolioState), 0 ≤ st.cash →
      0 ≤ (buyPhase prices pv w picks st).cash := by
  intro picks
  induction picks with
  | nil => exact fun st h => h
  | cons q qs ih =>
    intro st h
    rw [buyPhase_cons]
    exact ih _ (buyOne_cash_nonneg prices pv w st q h)

theorem stepEnhanced_cash_nonneg (sl : ℚ) (picks : List String) (w : String → ℚ)
    (prices : Quotes) (st : PortfolioState)
    (hnn : pricesNonneg prices) (h : 0 ≤ st.cash) :
    0 ≤ (stepEnhanced sl picks w prices st).1.cash := by
  simp only [stepEnhanced]
  apply buyPhase_cash_nonneg
  have hs := sellProceeds_nonneg prices hnn (toSell prices picks sl st.positions)
  show 0 ≤ st.cash + sellProceeds prices (toSell prices picks sl st.positions)
  linarith

theorem statesEnhanced_cash_nonneg (sl : ℚ) :
    ∀ (days : List DayInput) (st : PortfolioState), 0 ≤ st.cash →
      (∀ d ∈ days, pricesNonneg d.quotes) →
      (statesEnhanced sl days st).Forall (fun s => 0 ≤ s.cash) := by
  intro days
  induction days with
  | nil =>
    intro st h _
    simpa [statesEnhanced] using h
  | cons d ds ih =>
    intro st h hdays
    have hd : pricesNonneg d.quotes := hdays d (List.mem_cons_self d ds)
    have hds : ∀ d' ∈ ds, pricesNonneg d'.quotes :=
      fun d' hd' => hdays d' (List.mem_cons_of_mem d hd')
    simp only [statesEnhanced, List.forall_cons]
    exact ⟨h, ih _ (stepEnhanced_cash_nonneg sl d.picks d.weights d.quotes st hd h) hds⟩

theorem advRebalanceOne_cash_nonneg (prices : Quotes) (target : ℚ)
    (st : PortfolioState) (t : String)
    (hnn : pricesNonneg prices) (h : 0 ≤ st.cash) :
    0 ≤ (advRebalanceOne prices target st t).cash := by
  cases hpq : prices t with
  | none => simpa [advRebalanceOne, hpq] using h
  | some p =>
    have hp0 : 0 ≤ p := hnn t p hpq
    have hcv : ∀ pos : Position, (0:ℚ) ≤ (pos.shares : ℚ) * p :=
      fun pos => mul_nonneg (by positivity) hp0
    cases hfind : findPos st.positions t with
    | some pos =>
      simp only [advRebalanceOne, hpq, hfind]
      split_ifs with h1 h2
      · simpa using sub_nonneg.mpr h2.2
      · have := hcv pos
        simp only []
        linarith
      · simpa using h
    | none =>
      simp only [advRebalanceOne, hpq, hfind]
      split_ifs with h1 h2
      · simpa using sub_nonneg.mpr h2
      · simpa using h
      · simpa using h

theorem advFold_cash_nonneg (prices : Quotes) (target : ℚ) (hnn : pricesNonneg prices) :
    ∀ (l : List String) (st : PortfolioState), 0 ≤ st.cash →
      0 ≤ (l.foldl (advRebalanceOne prices target) st).cash := by
  intro l
  induction l with
  | nil => exact fun st h => h
  | cons q qs ih =>
    intro st h
    rw [List.foldl_cons]
    exact ih _ (advRebalanceOne_cash_nonneg prices target st q hnn h)

theorem stepAdvanced_cash_nonneg (prices : Quotes) (picks : List String)
    (st : PortfolioState) (hnn : pricesNonneg prices) (h : 0 ≤ st.cash) :
    0 ≤ (stepAdvanced prices picks st).1.cash := by
  simp only [stepAdvanced]
  apply advFold_cash_nonneg prices _ hnn
  have h1 := sellProceeds_nonneg prices hnn (st.positions.filter (advStopCond prices))
  have h2 := sellProceeds_nonneg prices hnn
    ((st.positions.filter (fun tp => !(advStopCond prices tp))).filter (advNonSelCond prices picks))
  show 0 ≤ st.cash + sellProceeds prices (st.positions.filter (advStopCond prices))
      + sellProceeds prices
        ((st.positions.filter (fun tp => !(advStopCond prices tp))).filter (advNonSelCond prices picks))
  linarith

/-- C4: cash non-negativity is an invariant of both simulations: with
nonnegative quoted prices, every state along a `run_backtest_enhanced` run
(after each rebalance-date transition, starting from a nonnegative initial
balance) has cash ≥ 0, and one `run_advanced_backtest` transition preserves
cash ≥ 0 as well. -/
theorem cash_never_negative (sl : ℚ) (days : List DayInput)
    (st0 stA : PortfolioState) (pricesA : Quotes) (picksA : List String)
    (h0 : 0 ≤ st0.cash) (hdays : ∀ d ∈ days, pricesNonneg d.quotes)
    (hA0 : 0 ≤ stA.cash) (hA : pricesNonneg pricesA) :
    (statesEnhanced sl days st0).Forall (fun s => 0 ≤ s.cash)
    ∧ 0 ≤ (stepAdvanced pricesA picksA stA).1.cash :=
  ⟨statesEnhanced_cash_nonneg sl days st0 h0 hdays,
    stepAdvanced_cash_nonneg pricesA picksA stA hA hA0⟩

theorem cash_never_negative_witness :
    (statesEnhanced (-10) [⟨quotesTen, ["A"], fun _ => 1⟩] ⟨100000, []⟩).Forall
        (fun s => 0 ≤ s.cash)
    ∧ 0 ≤ (stepAdvanced quotesTen ["A"] ⟨100000, []⟩).1.cash :=
  cash_never_negative (-10) [⟨quotesTen, ["A"], fun _ => 1⟩] ⟨100000, []⟩ ⟨100000, []⟩
    quotesTen ["A"] (by norm_num)
    (by
      intro d hd
      rw [List.mem_singleton] at hd
      subst hd
      intro t p hp
      injection hp with hp'
      rw [← hp']
      norm_num)
    (by norm_num)
    (by
      intro t p hp
      injection hp with hp'
      rw [← hp']
      norm_num)

theorem foldl_min_le_init : ∀ (l : List ℚ) (a : ℚ), l.foldl min a ≤ a := by
  intro l
  induction l with
  | nil => exact fun a => le_refl a
  | cons x xs ih => exact fun a => le_trans (ih (min a x)) (min_le_left a x)

theorem foldl_min_le_mem : ∀ (l : List ℚ) (a x : ℚ), x ∈ l → l.foldl min a ≤ x := by
  intro l
  induction l with
  | nil => intro a x h; cases h
  | cons y ys ih =>
    intro a x h
    rcases List.mem_cons.mp h with h' | h'
    · subst h'
      exact le_trans (foldl_min_le_init ys (min a x)) (min_le_right a x)
    · exact ih (min a y) x h'

theorem le_foldl_max_init : ∀ (l : List ℚ) (a : ℚ), a ≤ l.foldl max a := by
  intro l
  induction l with
  | nil => exact fun a => le_refl a
  | cons x xs ih => exact fun a => le_trans (le_max_left a x) (ih (max a x))

theorem le_foldl_max_mem : ∀ (l : List ℚ) (a x : ℚ), x ∈ l → x ≤ l.foldl max a := by
  intro l
  induction l with
  | nil => intro a x h; cases h
  | cons y ys ih =>
    intro a x h
    rcases List.mem_cons.mp h with h' | h'
    · subst h'
      exact le_trans (le_max_right a x) (le_foldl_max_init ys (max a x))
    · exact ih (max a y) x h'

theorem qMin_le_of_mem (xs : List ℚ) (x : ℚ) (h : x ∈ xs) : qMin xs ≤ x := by
  cases xs with
  | nil => cases h
  | cons y ys =>
    rcases List.mem_cons.mp h with h' | h'
    · subst h'
      exact foldl_min_le_init ys x
    · exact foldl_min_le_mem ys y x h'

theorem le_qMax_of_mem (xs : List ℚ) (x : ℚ) (h : x ∈ xs) : x ≤ qMax xs := by
  cases xs with
  | nil => cases h
  | cons y ys =>
    rcases List.mem_cons.mp h with h' | h'
    · subst h'
      exact le_foldl_max_init ys x
    · exact le_foldl_max_mem ys y x h'

theorem minmaxNorm_bounds (xs : List ℚ) (x : ℚ) (h : x ∈ xs) :
    0 ≤ minmaxNorm xs x ∧ minmaxNorm xs x ≤ 100 := by
  have hlo := qMin_le_of_mem xs x h
  have hhi := le_qMax_of_mem xs x h
  have heps : (0:ℚ) < EPS10 := by norm_num [EPS10]
  have hd : 0 < qMax xs - qMin xs + EPS10 := by linarith
  unfold minmaxNorm
  constructor
  · exact mul_nonneg (div_nonneg (by linarith) (le_of_lt hd)) (by norm_num)
  · have h1 : (x - qMin xs) / (qMax xs - qMin xs + EPS10) ≤ 1 :=
      (div_le_one hd).mpr (by linarith)
    calc (x - qMin xs) / (qMax xs - qMin xs + EPS10) * 100
        ≤ 1 * 100 := mul_le_mul_of_nonneg_right h1 (by norm_num)
      _ = 100 := by norm_num

theorem minmaxNorm_singleton (x : ℚ) : minmaxNorm [x] x = 0 := by
  simp [minmaxNorm, qMin, qMax]

theorem rsiNorm_bounds (ps : List ℚ) : 0 ≤ rsiNorm ps ∧ rsiNorm ps ≤ 100 := by
  simp only [rsiNorm, rsiSignal]
  split_ifs with hlen
  · norm_num
  · set ds := diffs ps with hds
    set ag := ((ds.drop (ds.length - 14)).map (fun d => max d 0)).sum / 14 with hag
    set al := ((ds.drop (ds.length - 14)).map (fun d => max (-d) 0)).sum / 14 with hal
    have hag0 : 0 ≤ ag := by
      rw [hag]
      apply div_nonneg _ (by norm_num)
      apply List.sum_nonneg
      intro y hy
      obtain ⟨d, _, rfl⟩ := List.mem_map.mp hy
      exact le_max_right d 0
    have hal0 : 0 ≤ al := by
      rw [hal]
      apply div_nonneg _ (by norm_num)
      apply List.sum_nonneg
      intro y hy
      obtain ⟨d, _, rfl⟩ := List.mem_map.mp hy
      exact le_max_right (-d) 0
    have heps : (0:ℚ) < al + EPS10 := by
      have : (0:ℚ) < EPS10 := by norm_num [EPS10]
      linarith
    have hrs : 0 ≤ ag / (al + EPS10) := div_nonneg hag0 (le_of_lt heps)
    set rs := ag / (al + EPS10) with hrsdef
    have h1 : (0:ℚ) < 1 + rs := by linarith
    have h2 : 100 / (1 + rs) ≤ 100 := div_le_self (by norm_num) (by linarith)
    have h3 : (0:ℚ) < 100 / (1 + rs) := div_pos (by norm_num) h1
    have habs : |100 - 100 / (1 + rs) - 50| ≤ 50 := abs_le.mpr ⟨by linarith, by linarith⟩
    have habs0 : 0 ≤ |100 - 100 / (1 + rs) - 50| := abs_nonneg _
    have h4 : |100 - 100 / (1 + rs) - 50| / 50 ≤ 1 := (div_le_one (by norm_num)).mpr habs
    have h5 : 0 ≤ |100 - 100 / (1 + rs) - 50| / 50 := div_nonneg habs0 (by norm_num)
    constructor
    · nlinarith
    · nlinarith

theorem volatility_risk_bounds (ps : List ℚ) (v : ℝ)
    (hv : calculate_volatility_risk ps = some v) : -100 < v ∧ v ≤ 0 := by
  unfold calculate_volatility_risk at hv
  split_ifs at hv with h1 h2
  · injection hv with hv'
    rw [← hv']
    norm_num
  · injection hv with hv'
    rw [← hv']
    set a := annualVol ps with hadef
    have ha : 0 ≤ a := mul_nonneg (Real.sqrt_nonneg _) (Real.sqrt_nonneg _)
    have h1a : (0:ℝ) < 1 + a := by linarith
    have hq1 : a / (1 + a) < 1 := (div_lt_one h1a).mpr (by linarith)
    have hq0 : 0 ≤ a / (1 + a) := div_nonneg ha (le_of_lt h1a)
    have heq : -a / (1 + a) * 100 = -(a / (1 + a) * 100) := by ring
    rw [heq]
    constructor
    · nlinarith
    · nlinarith

/-- C6 (amended): the min-max-normalized features of
`calculate_composite_score` (momentum, quality, sharpe, mean reversion) lie
in [0, 100] for every eligible set, and `rsi_norm` lies in [0, 100]; but
`risk_norm` enters the composite *unnormalized* — it is the raw volatility
penalty, always in (-100, 0] — and for a single-ticker set min-max
normalization does not raise but falls back to 0, the bottom of the scale,
not the midpoint. -/
theorem composite_normalization_bounds :
    (∀ (xs : List ℚ) (x : ℚ), x ∈ xs → 0 ≤ minmaxNorm xs x ∧ minmaxNorm xs x ≤ 100)
    ∧ (∀ ps : List ℚ, 0 ≤ rsiNorm ps ∧ rsiNorm ps ≤ 100)
    ∧ (∀ (ps : List ℚ) (v : ℝ), calculate_volatility_risk ps = some v → -100 < v ∧ v ≤ 0)
    ∧ (∀ x : ℚ, minmaxNorm [x] x = 0) :=
  ⟨minmaxNorm_bounds, rsiNorm_bounds, volatility_risk_bounds, minmaxNorm_singleton⟩

/-- C6 counterexample: for the price column [100, 110, 100] (part of any
eligible set of ≥ 2 tickers) the `risk_norm` value entering the composite —
`risk_norm = risk` is the raw volatility penalty — is strictly negative, so
it does not lie in [0, 100]; and a single-ticker min-max normalization
yields 0, not the midpoint 50. -/
theorem risk_norm_negative_counterexample :
    (∃ v : ℝ, calculate_volatility_risk [100, 110, 100] = some v ∧ v < 0)
    ∧ minmaxNorm [7] 7 = 0 := by
  constructor
  · refine ⟨-(annualVol [100, 110, 100]) / (1 + annualVol [100, 110, 100]) * 100, ?_, ?_⟩
    · unfold calculate_volatility_risk
      norm_num
    · have hvar : sampleVar (pctChanges [100, 110, 100]) = 441 / 24200 := by
        norm_num [sampleVar, pctChanges, sampleMean, List.zip, List.zipWith]
      have ha : 0 < annualVol [100, 110, 100] := by
        unfold annualVol
        apply mul_pos
        · rw [hvar]
          exact Real.sqrt_pos.mpr (by norm_num)
        · exact Real.sqrt_pos.mpr (by norm_num)
      set a := annualVol [100, 110, 100] with hadef
      have h1 : (0:ℝ) < 1 + a := by linarith
      have h2 : 0 < a / (1 + a) * 100 := by positivity
      have heq : -a / (1 + a) * 100 = -(a / (1 + a) * 100) := by ring
      rw [heq]
      linarith
  · simp [minmaxNorm, qMin, qMax]

/-- C7 (amended): the Sharpe ratio computed from the weekly-rebalanced
equity curve is scaled by √252, not √52: it always equals √(252/52) =
√(63/13) times the spec's weekly-scaled Sharpe. -/
theorem sharpe_scaling_weekly (rs : List ℚ) :
    sharpeEnhanced rs = Real.sqrt (63 / 13) * sharpeWeeklySpec rs := by
  unfold sharpeEnhanced sharpeWeeklySpec
  split_ifs with h
  · have hsq : Real.sqrt 252 = Real.sqrt (63 / 13) * Real.sqrt 52 := by
      rw [← Real.sqrt_mul (by norm_num : (0:ℝ) ≤ 63 / 13) 52]
      norm_num
    rw [hsq]
    ring
  · rw [mul_zero]

/-- C7 counterexample: on the two-return series [0, 2] the code's Sharpe
(√252 scaling) differs from the spec's weekly √52 scaling. -/
theorem sharpe_scaling_counterexample : sharpeEnhanced [0, 2] ≠ sharpeWeeklySpec [0, 2] := by
  have hvar : sampleVar [0, 2] = 2 := by norm_num [sampleVar, sampleMean]
  have hmean : sampleMean [0, 2] = 1 := by norm_num [sampleMean]
  have hstd : sampleStd [0, 2] = Real.sqrt 2 := by
    unfold sampleStd
    rw [hvar]
    norm_num
  have hpos : (0:ℝ) < sampleStd [0, 2] := by
    rw [hstd]
    exact Real.sqrt_pos.mpr (by norm_num)
  unfold sharpeEnhanced sharpeWeeklySpec
  rw [if_pos hpos, if_pos hpos, hstd, hmean]
  intro heq
  have hne : ((1:ℚ):ℝ) / Real.sqrt 2 ≠ 0 := by
    rw [Rat.cast_one]
    exact div_ne_zero one_ne_zero (ne_of_gt (Real.sqrt_pos.mpr (by norm_num)))
  rw [mul_comm (((1:ℚ):ℝ) / Real.sqrt 2) (Real.sqrt 252),
    mul_comm (((1:ℚ):ℝ) / Real.sqrt 2) (Real.sqrt 52)] at heq
  have h2 : Real.sqrt 252 = Real.sqrt 52 := mul_right_cancel₀ hne heq
  have h3 : Real.sqrt 52 < Real.sqrt 252 := Real.sqrt_lt_sqrt (by norm_num) (by norm_num)
  exact absurd h2.symm (ne_of_lt h3)

theorem cagr_two_point_gt : (21 : ℝ) < cagrPct 100000 121000 365 := by
  unfold cagrPct
  have hb : (1 + (((121000:ℚ):ℝ) / ((100000:ℚ):ℝ) - 1)) = 1.21 := by norm_num
  have he : (1:ℝ) / (((365:ℕ):ℝ) / 365.25) = 365.25 / 365 := by norm_num
  rw [hb, he]
  have h1 : (1.21:ℝ) ^ (1:ℝ) < (1.21:ℝ) ^ ((365.25:ℝ) / 365) :=
    Real.rpow_lt_rpow_of_exponent_lt (by norm_num) (by norm_num)
  rw [Real.rpow_one] at h1
  linarith

/-- C9 (amended): for the two-point equity series 100,000 → 121,000 whose
dates are exactly 365 days apart, the computed CAGR is strictly greater
than 21.00% (the exponent is 365.25/365 > 1, giving ≈ 21.016%); it would
equal exactly 21.00% only over 365.25 elapsed days. -/
theorem cagr_two_point_exceeds : (21 : ℝ) < cagrPct 100000 121000 365 :=
  cagr_two_point_gt

/-- C9 counterexample: the CAGR of the two-point series over exactly 365
days is not 21.00%. -/
theorem cagr_two_point_not_21 : cagrPct 100000 121000 365 ≠ 21 :=
  ne_of_gt cagr_two_point_gt
